import Mathlib

/-!
Verification of the `throttle` Go package.

The repository ships two variants of the package in `throttle.go`:
an `http.Request`-keyed variant (with the `ip4` key-derivation helper and a
package-level `timeout` variable) and a plain string-keyed variant.  Both
share the same core: a `Throttle` holds a `requestRate` duration and a map
from client key to an unbuffered token channel; `Wait` looks the channel up
(creating it, together with an immediate first producer, on first sight),
races the channel against a per-call timeout of `requestRate`, and on success
spawns the next producer, which sleeps `requestRate` before sending.

Embedding choices, all read off the source:
* Go `time.Duration` values are natural numbers of nanoseconds.
* Go strings are lists of characters (`GoString`).
* A client's unbuffered token channel is represented by the list of its
  pending producer sends, each recorded as the instant its `time.Sleep`
  ends and the send becomes ready to rendezvous with a receiver; a send on
  an unbuffered channel stays pending until a receiver takes it.
* `Wait` is given the instant `now` at which it is called and is modelled
  for serialized calls (the per-call work is sequential in the source; the
  map step is serialized by `tokenChansMutex`).  The `select` takes the
  token branch when some pending send is ready no later than the timeout
  instant `now + requestRate`; the receive matches the earliest-ready
  pending send.  When both branches are ready at the very same instant Go
  picks one of them at random; the model resolves this measure-zero tie in
  favour of the token branch, and no theorem below depends on the tie.
-/

/-- Nanoseconds in Go's `time.Second`. -/
def time.Second : Nat := 1000000000

/-- Nanoseconds in Go's `time.Millisecond`. -/
def time.Millisecond : Nat := 1000000

/-- Package-level `var timeout = 5 * time.Second` of the HTTP variant. -/
def timeout : Nat := 5 * time.Second

/-- Go strings, modelled as lists of characters. -/
abbrev GoString := List Char

/-- Go `strings.Contains(s, sep)` for the single-character separator used in
`ip4`. -/
def containsChar (s : GoString) (c : Char) : Bool :=
  s.any (fun x => x == c)

/-- Go `strings.Split(s, sep)` for a single-character separator: the
substrings between consecutive occurrences of `sep`. -/
def splitOnChar (sep : Char) : GoString → List GoString
  | [] => [[]]
  | c :: rest =>
    if c = sep then
      [] :: splitOnChar sep rest
    else
      match splitOnChar sep rest with
      | [] => [[c]]
      | f :: fs => (c :: f) :: fs

/-- The part of `*http.Request` that the package reads: `r.RemoteAddr`. -/
structure Request where
  RemoteAddr : GoString
deriving DecidableEq

/-- Go `ip4` (HTTP variant, `throttle.go` lines 76-85): keep `RemoteAddr`
unchanged when it has no colon, otherwise take the field before the first
colon of `strings.Split(r.RemoteAddr, ":")`. -/
def ip4 (r : Request) : GoString :=
  if !(containsChar r.RemoteAddr ':') then
    r.RemoteAddr
  else
    let fields := splitOnChar ':' r.RemoteAddr
    if fields.length < 2 then
      r.RemoteAddr
    else
      fields[0]!

/-- The `Throttle` struct: the configured `requestRate` and the map
`tokenChans` from client key to that client's token channel, the channel
being represented by the ready instants of its pending producer sends.
The `tokenChansMutex` field serializes the lookup-or-create step and is
modelled by that step being a single atomic function application. -/
structure Throttle where
  requestRate : Nat
  tokenChans : List (GoString × List Nat)
deriving DecidableEq

/-- Lookup in the Go map `tokenChans`. -/
def lookupChan : List (GoString × List Nat) → GoString → Option (List Nat)
  | [], _ => none
  | (k, v) :: rest, key => if k = key then some v else lookupChan rest key

/-- Update (or insert) in the Go map `tokenChans`. -/
def setChan : List (GoString × List Nat) → GoString → List Nat → List (GoString × List Nat)
  | [], key, v => [(key, v)]
  | (k, w) :: rest, key, v =>
    if k = key then (k, v) :: rest else (k, w) :: setChan rest key v

/-- Earliest ready instant among the pending producer sends of a channel:
the receive in `select` matches the sender that is ready first. -/
def minReady : List Nat → Option Nat
  | [] => none
  | r :: rest =>
    match minReady rest with
    | none => some r
    | some m => some (min r m)

/-- Go `New` (`throttle.go` lines 24-30 and 103-109): a `Throttle` with the
given request rate and an empty `tokenChans` map; nothing else happens. -/
def New (requestRate : Nat) : Throttle :=
  { requestRate := requestRate, tokenChans := [] }

/-- The lookup-or-create step of `Wait` (`throttle.go` lines 42-52 and
119-129), executed under `tokenChansMutex`: return the client's channel
and the (possibly updated) map.  On first sight of the key a channel is
created, the goroutine sending the first token is spawned — its unbuffered
send is ready immediately, at instant `now` — and the channel is recorded
in the map before the mutex is released. -/
def getTokenChan (t : Throttle) (user : GoString) (now : Nat) :
    List Nat × List (GoString × List Nat) :=
  match lookupChan t.tokenChans user with
  | some tokenChan => (tokenChan, t.tokenChans)
  | none => ([now], setChan t.tokenChans user [now])

/-- Observable outcome of one `Wait` call, together with the instant the
call returns: `ok servedAt` is the nil-error return after receiving a token
at `servedAt`; `rateLimited reported returnedAt` is the error return taken
at `returnedAt`, whose message "one request per %v allowed" formats the
duration `reported`. -/
inductive WaitResult where
  | ok (servedAt : Nat)
  | rateLimited (reported : Nat) (returnedAt : Nat)
deriving DecidableEq

/-- Whether a `Wait` outcome is the nil-error (request served) one. -/
def isOk : WaitResult → Bool
  | WaitResult.ok _ => true
  | WaitResult.rateLimited _ _ => false

/-- The instant at which the `Wait` call returned to its caller. -/
def returnedAt : WaitResult → Nat
  | WaitResult.ok s => s
  | WaitResult.rateLimited _ r => r

/-- Go `Wait` of the string-keyed variant (`throttle.go` lines 117-151),
called at instant `now`.  After the lookup-or-create step, a timeout
goroutine is spawned whose send becomes ready at `now + requestRate`; the
`select` then takes the token branch iff some pending producer send is
ready by that instant, receiving the earliest one (at `max now r`, since a
sender ready at `r ≤ now` has been blocking since `r`).  On the token
branch the next producer is spawned, ready one `requestRate` after the
consumption instant, and nil is returned; on the timeout branch the error
reporting `t.requestRate` is returned and the map is left as is. -/
def Wait (t : Throttle) (client : GoString) (now : Nat) : WaitResult × Throttle :=
  let tokenChan := (getTokenChan t client now).1
  let chans := (getTokenChan t client now).2
  match minReady tokenChan with
  | some r =>
    if r ≤ now + t.requestRate then
      (WaitResult.ok (max now r),
        { t with tokenChans :=
            setChan chans client (tokenChan.erase r ++ [max now r + t.requestRate]) })
    else
      (WaitResult.rateLimited t.requestRate (now + t.requestRate),
        { t with tokenChans := chans })
  | none =>
    (WaitResult.rateLimited t.requestRate (now + t.requestRate),
      { t with tokenChans := chans })

/-- Go `Wait` of the HTTP variant (`throttle.go` lines 39-74): identical to
the string-keyed variant except that the client key is `ip4 r` and — as the
source literally reads on line 72 — the error formats the package-level
`timeout`, not `t.requestRate`.  (The Go function also returns the request
pointer, which is `r` exactly on the nil-error branch and nil otherwise;
this is determined by the `WaitResult` constructor.) -/
def WaitHTTP (t : Throttle) (r : Request) (now : Nat) : WaitResult × Throttle :=
  let user := ip4 r
  let tokenChan := (getTokenChan t user now).1
  let chans := (getTokenChan t user now).2
  match minReady tokenChan with
  | some rdy =>
    if rdy ≤ now + t.requestRate then
      (WaitResult.ok (max now rdy),
        { t with tokenChans :=
            setChan chans user (tokenChan.erase rdy ++ [max now rdy + t.requestRate]) })
    else
      (WaitResult.rateLimited timeout (now + t.requestRate),
        { t with tokenChans := chans })
  | none =>
    (WaitResult.rateLimited timeout (now + t.requestRate),
      { t with tokenChans := chans })

/-- Capacity of the per-call `timeoutChan`: the source builds it with
`make(chan struct\x7b\x7d)`, an unbuffered channel, so a send on it
completes only when matched by a receive. -/
def timeoutChanCap : Nat := 0

/-- Whether the select's timeout branch — the only receive ever performed
on the call's `timeoutChan` — ran, i.e. whether the timeout goroutine's
send was ever matched by a receive. -/
def timeoutSignalConsumed : WaitResult → Bool
  | WaitResult.ok _ => false
  | WaitResult.rateLimited _ _ => true

/-- Whether the call's timeout goroutine blocks forever: its send is on an
unbuffered channel (capacity `timeoutChanCap = 0`), so if no receive ever
matches it the goroutine never gets past the send. -/
def timeoutTaskBlocksForever (res : WaitResult) : Bool :=
  !(timeoutSignalConsumed res) && (timeoutChanCap == 0)

/-- Number of pending background producer sends across all clients of a
throttle: Go goroutines spawned by the package that have not yet handed
their token to a receiver. -/
def backgroundProducers (t : Throttle) : Nat :=
  (t.tokenChans.map (fun p => p.2.length)).sum

/-- Invariant of the `tokenChans` map: every recorded channel has exactly
one pending producer send. -/
def chansInv (m : List (GoString × List Nat)) : Prop :=
  ∀ p ∈ m, p.2.length = 1

/-- Throttle states reachable from construction by any sequence of
(serialized) `Wait` calls, at arbitrary instants and for arbitrary
clients. -/
inductive Reachable : Throttle → Prop where
  | init (d : Nat) : Reachable (New d)
  | step (t : Throttle) (client : GoString) (now : Nat) :
      Reachable t → Reachable (Wait t client now).2

theorem lookupChan_setChan_self (m : List (GoString × List Nat)) (k : GoString) (v : List Nat) :
    lookupChan (setChan m k v) k = some v := by
  induction m with
  | nil => simp [setChan, lookupChan]
  | cons p rest ih =>
    obtain ⟨a, b⟩ := p
    by_cases h : a = k
    · simp [setChan, lookupChan, h]
    · simp [setChan, lookupChan, h, ih]

theorem mem_of_lookupChan (m : List (GoString × List Nat)) (k : GoString) (v : List Nat)
    (h : lookupChan m k = some v) : (k, v) ∈ m := by
  induction m with
  | nil => simp [lookupChan] at h
  | cons p rest ih =>
    obtain ⟨a, b⟩ := p
    by_cases hk : a = k
    · subst hk
      simp [lookupChan] at h
      subst h
      exact List.mem_cons_self _ _
    · simp [lookupChan, hk] at h
      exact List.mem_cons_of_mem _ (ih h)

theorem mem_setChan (m : List (GoString × List Nat)) (k : GoString) (v : List Nat)
    (p : GoString × List Nat) (h : p ∈ setChan m k v) : p = (k, v) ∨ p ∈ m := by
  induction m with
  | nil => simp [setChan] at h; exact Or.inl h
  | cons q rest ih =>
    obtain ⟨a, b⟩ := q
    by_cases hk : a = k
    · subst hk
      simp [setChan] at h
      rcases h with h | h
      · exact Or.inl h
      · exact Or.inr (List.mem_cons_of_mem _ h)
    · simp [setChan, hk] at h
      rcases h with h | h
      · exact Or.inr (by simp [h])
      · rcases ih h with h | h
        · exact Or.inl h
        · exact Or.inr (List.mem_cons_of_mem _ h)

theorem chansInv_setChan (m : List (GoString × List Nat)) (k : GoString) (v : List Nat)
    (hm : chansInv m) (hv : v.length = 1) : chansInv (setChan m k v) := by
  intro p hp
  rcases mem_setChan m k v p hp with h | h
  · rw [h]; exact hv
  · exact hm p h

theorem Wait_fresh (t : Throttle) (client : GoString) (now : Nat)
    (h : lookupChan t.tokenChans client = none) :
    Wait t client now =
      (WaitResult.ok now,
        { t with tokenChans :=
            setChan (setChan t.tokenChans client [now]) client [now + t.requestRate] }) := by
  simp [Wait, getTokenChan, h, minReady, Nat.le_add_right]

theorem Wait_found (t : Throttle) (client : GoString) (now : Nat) (c : List Nat)
    (h : lookupChan t.tokenChans client = some c) :
    Wait t client now =
      match minReady c with
      | some r =>
        if r ≤ now + t.requestRate then
          (WaitResult.ok (max now r),
            { t with tokenChans :=
                setChan t.tokenChans client (c.erase r ++ [max now r + t.requestRate]) })
        else
          (WaitResult.rateLimited t.requestRate (now + t.requestRate), t)
      | none => (WaitResult.rateLimited t.requestRate (now + t.requestRate), t) := by
  simp [Wait, getTokenChan, h]

theorem Wait_found_ready (t : Throttle) (client : GoString) (now : Nat) (r0 : Nat)
    (h : lookupChan t.tokenChans client = some [r0]) (hr : r0 ≤ now + t.requestRate) :
    Wait t client now =
      (WaitResult.ok (max now r0),
        { t with tokenChans :=
            setChan t.tokenChans client [max now r0 + t.requestRate] }) := by
  rw [Wait_found t client now [r0] h]
  simp [minReady, hr]

theorem Wait_found_late (t : Throttle) (client : GoString) (now : Nat) (r0 : Nat)
    (h : lookupChan t.tokenChans client = some [r0]) (hr : ¬ r0 ≤ now + t.requestRate) :
    Wait t client now = (WaitResult.rateLimited t.requestRate (now + t.requestRate), t) := by
  rw [Wait_found t client now [r0] h]
  simp [minReady, hr]

theorem wait_preserves_inv (t : Throttle) (client : GoString) (now : Nat)
    (h : chansInv t.tokenChans) : chansInv (Wait t client now).2.tokenChans := by
  cases hl : lookupChan t.tokenChans client with
  | none =>
    rw [Wait_fresh t client now hl]
    exact chansInv_setChan _ _ _ (chansInv_setChan _ _ _ h rfl) rfl
  | some c =>
    have hc1 : c.length = 1 := h _ (mem_of_lookupChan _ _ _ hl)
    obtain ⟨r0, rfl⟩ := List.length_eq_one.mp hc1
    by_cases hr : r0 ≤ now + t.requestRate
    · rw [Wait_found_ready t client now r0 hl hr]
      exact chansInv_setChan _ _ _ h rfl
    · rw [Wait_found_late t client now r0 hl hr]
      exact h

theorem reachable_chansInv (t : Throttle) (h : Reachable t) : chansInv t.tokenChans := by
  induction h with
  | init d => intro p hp; simp [New] at hp
  | step t client now _ ih => exact wait_preserves_inv t client now ih

/-- C2: for every client key not previously seen by the throttle, the first
token is produced with zero initial delay, so a `Wait` call for a fresh key
succeeds, served at the very instant `now` of the call — in particular
before the call's own timeout at `now + requestRate`. -/
theorem fresh_client_first_wait_succeeds (t : Throttle) (client : GoString) (now : Nat)
    (h : lookupChan t.tokenChans client = none) :
    (Wait t client now).1 = WaitResult.ok now := by
  rw [Wait_fresh t client now h]

/-- Witness for `fresh_client_first_wait_succeeds`: a fresh key on a newly
constructed throttle with a one-second rate, called at instant 0. -/
theorem fresh_client_first_wait_succeeds_witness :
    lookupChan (New time.Second).tokenChans ['a'] = none ∧
    (Wait (New time.Second) ['a'] 0).1 = WaitResult.ok 0 :=
  ⟨rfl, fresh_client_first_wait_succeeds (New time.Second) ['a'] 0 rfl⟩

/-- C3: every `Wait` call returns within the configured interval of being
called — the instant it returns is at most `now + requestRate`, whether the
outcome is success or failure; it is a single bounded attempt (one total
function evaluation, no internal retry). -/
theorem wait_returns_within_interval (t : Throttle) (client : GoString) (now : Nat) :
    returnedAt (Wait t client now).1 ≤ now + t.requestRate := by
  cases hl : lookupChan t.tokenChans client with
  | none =>
    rw [Wait_fresh t client now hl]
    exact Nat.le_add_right now t.requestRate
  | some c =>
    rw [Wait_found t client now c hl]
    cases hm : minReady c with
    | none => simp [returnedAt]
    | some r =>
      by_cases hr : r ≤ now + t.requestRate
      · simp only [hm, hr, if_true, returnedAt]
        exact Nat.max_le.mpr ⟨Nat.le_add_right _ _, hr⟩
      · simp [hm, hr, returnedAt]

/-- C4: in every reachable throttle state, each client's channel has at
most one pending producer send — at most one token in flight per key; a
second production is never scheduled before the prior token is consumed. -/
theorem at_most_one_token_in_flight (t : Throttle) (client : GoString) (c : List Nat)
    (h : Reachable t) (hc : lookupChan t.tokenChans client = some c) :
    c.length ≤ 1 :=
  Nat.le_of_eq (reachable_chansInv t h _ (mem_of_lookupChan _ _ _ hc))

/-- Witness for `at_most_one_token_in_flight`: the state reached by one
`Wait` call on a fresh throttle, whose single client has the single pending
send ready at `time.Second`. -/
theorem at_most_one_token_in_flight_witness :
    lookupChan ((Wait (New time.Second) ['a'] 0).2).tokenChans ['a'] = some [time.Second] ∧
    ([time.Second] : List Nat).length ≤ 1 :=
  ⟨rfl,
    at_most_one_token_in_flight (Wait (New time.Second) ['a'] 0).2 ['a'] [time.Second]
      (Reachable.step (New time.Second) ['a'] 0 (Reachable.init time.Second)) rfl⟩

/-- C5: whenever a `Wait` call on a reachable state succeeds, being served
at instant `s` (the consumption of the token), the client's channel
afterwards holds exactly one pending send, ready precisely at
`s + requestRate` — one interval after the consumption instant, not after
the call-arrival instant. -/
theorem next_token_one_interval_after_consumption (t : Throttle) (client : GoString)
    (now s : Nat) (h : Reachable t) (hs : (Wait t client now).1 = WaitResult.ok s) :
    lookupChan (Wait t client now).2.tokenChans client = some [s + t.requestRate] := by
  cases hl : lookupChan t.tokenChans client with
  | none =>
    rw [Wait_fresh t client now hl] at hs ⊢
    injection hs with hs'
    subst hs'
    exact lookupChan_setChan_self _ _ _
  | some c =>
    have hc1 : c.length = 1 := reachable_chansInv t h _ (mem_of_lookupChan _ _ _ hl)
    obtain ⟨r0, rfl⟩ := List.length_eq_one.mp hc1
    by_cases hr : r0 ≤ now + t.requestRate
    · rw [Wait_found_ready t client now r0 hl hr] at hs ⊢
      injection hs with hs'
      subst hs'
      exact lookupChan_setChan_self _ _ _
    · rw [Wait_found_late t client now r0 hl hr] at hs
      simp at hs

/-- Witness for `next_token_one_interval_after_consumption`: the first call
on a fresh throttle is served at instant 0 and leaves the next send ready at
`0 + time.Second`. -/
theorem next_token_one_interval_after_consumption_witness :
    (Wait (New time.Second) ['a'] 0).1 = WaitResult.ok 0 ∧
    lookupChan (Wait (New time.Second) ['a'] 0).2.tokenChans ['a'] =
      some [0 + (New time.Second).requestRate] :=
  ⟨rfl,
    next_token_one_interval_after_consumption (New time.Second) ['a'] 0 0
      (Reachable.init time.Second) rfl⟩

/-- C7: a `Wait` call that fails with the timeout consumes no token — the
whole throttle state, in particular the client's channel with its pending
send, is left exactly as it was, so the token remains available to a later
caller. -/
theorem failed_wait_leaves_tokens_unchanged (t : Throttle) (client : GoString) (now : Nat)
    (h : isOk (Wait t client now).1 = false) : (Wait t client now).2 = t := by
  cases hl : lookupChan t.tokenChans client with
  | none =>
    rw [Wait_fresh t client now hl] at h
    simp [isOk] at h
  | some c =>
    rw [Wait_found t client now c hl] at h ⊢
    cases hm : minReady c with
    | none => simp [hm]
    | some r =>
      by_cases hr : r ≤ now + t.requestRate
      · simp [hm, hr, isOk] at h
      · simp [hm, hr]

/-- Witness for `failed_wait_leaves_tokens_unchanged`: a throttle whose only
client's send is ready at `2 * time.Second`; a call at instant 0 with a
one-second rate times out at `time.Second` and changes nothing. -/
theorem failed_wait_leaves_tokens_unchanged_witness :
    isOk (Wait { requestRate := time.Second, tokenChans := [(['a'], [2 * time.Second])] }
      ['a'] 0).1 = false ∧
    (Wait { requestRate := time.Second, tokenChans := [(['a'], [2 * time.Second])] }
      ['a'] 0).2 =
      { requestRate := time.Second, tokenChans := [(['a'], [2 * time.Second])] } :=
  ⟨rfl,
    failed_wait_leaves_tokens_unchanged
      { requestRate := time.Second, tokenChans := [(['a'], [2 * time.Second])] } ['a'] 0 rfl⟩

theorem splitOnChar_eats_head (sep : Char) (s : GoString) :
    ∃ fs, splitOnChar sep s = s.takeWhile (fun c => c != sep) :: fs := by
  induction s with
  | nil => exact ⟨[], rfl⟩
  | cons c rest ih =>
    by_cases h : c = sep
    · subst h
      exact ⟨splitOnChar c rest, by simp [splitOnChar, List.takeWhile_cons]⟩
    · obtain ⟨fs, hfs⟩ := ih
      refine ⟨fs, ?_⟩
      simp [splitOnChar, h, hfs, List.takeWhile_cons]

theorem splitOnChar_length_of_mem (sep : Char) (s : GoString) (h : sep ∈ s) :
    2 ≤ (splitOnChar sep s).length := by
  induction s with
  | nil => cases h
  | cons c rest ih =>
    by_cases hc : c = sep
    · subst hc
      obtain ⟨fs, hfs⟩ := splitOnChar_eats_head c rest
      simp [splitOnChar, hfs]
    · have hr : sep ∈ rest := by
        rcases List.mem_cons.mp h with h1 | h1
        · exact absurd h1.symm hc
        · exact h1
      obtain ⟨fs, hfs⟩ := splitOnChar_eats_head sep rest
      have h2 := ih hr
      rw [hfs] at h2
      simp only [List.length_cons] at h2
      simp [splitOnChar, hc, hfs]
      omega

theorem containsChar_iff (s : GoString) (c : Char) : containsChar s c = true ↔ c ∈ s := by
  simp [containsChar, List.any_eq_true]

/-- C10: `ip4` returns `RemoteAddr` unchanged when it holds no colon and
otherwise the part of `RemoteAddr` strictly before its first colon — so the
bracketed IPv6 address "[::1]:8080" yields "[" — and this key derivation is
the only difference in state evolution between the HTTP variant of `Wait`
and the string-keyed variant. -/
theorem ip4_strips_after_first_colon :
    (∀ r : Request,
        ip4 r =
          if ':' ∈ r.RemoteAddr then r.RemoteAddr.takeWhile (fun c => c != ':')
          else r.RemoteAddr) ∧
    ip4 { RemoteAddr := "[::1]:8080".toList } = "[".toList ∧
    ∀ (t : Throttle) (rq : Request) (now : Nat),
      (WaitHTTP t rq now).2 = (Wait t (ip4 rq) now).2 := by
  refine ⟨fun r => ?_, by decide, fun t rq now => ?_⟩
  · by_cases h : ':' ∈ r.RemoteAddr
    · have hc : containsChar r.RemoteAddr ':' = true := (containsChar_iff _ _).mpr h
      obtain ⟨fs, hfs⟩ := splitOnChar_eats_head ':' r.RemoteAddr
      have hlen := splitOnChar_length_of_mem ':' r.RemoteAddr h
      rw [hfs] at hlen
      simp only [List.length_cons] at hlen
      simp [ip4, hc, hfs, h]
      intro hcon
      omega
    · have hc : containsChar r.RemoteAddr ':' = false := by
        cases hcc : containsChar r.RemoteAddr ':'
        · rfl
        · exact absurd ((containsChar_iff _ _).mp hcc) h
      simp [ip4, hc, h]
  · simp only [WaitHTTP, Wait]
    cases hm : minReady (getTokenChan t (ip4 rq) now).1 with
    | none => rfl
    | some rdy =>
      by_cases hr : rdy ≤ now + t.requestRate <;> simp [hm, hr]

/-- C6: the key-to-channel binding is created at most once per key.  The
lookup-or-create step runs under `tokenChansMutex`, so two concurrent
first-time callers for the same key execute it in sequence; after the
first caller (at instant `n1`) created the slot with its single initial
token, the second caller (at any instant `n2`) finds that very slot —
with the one token ready at `n1` — and leaves the map untouched: no second
slot, no second initial token. -/
theorem token_slot_created_at_most_once (t : Throttle) (user : GoString) (n1 n2 : Nat)
    (h : lookupChan t.tokenChans user = none) :
    lookupChan (getTokenChan t user n1).2 user = some [n1] ∧
    (getTokenChan { t with tokenChans := (getTokenChan t user n1).2 } user n2).1 = [n1] ∧
    (getTokenChan { t with tokenChans := (getTokenChan t user n1).2 } user n2).2 =
      (getTokenChan t user n1).2 := by
  have h1 : (getTokenChan t user n1).2 = setChan t.tokenChans user [n1] := by
    simp [getTokenChan, h]
  have h3 : lookupChan (setChan t.tokenChans user [n1]) user = some [n1] :=
    lookupChan_setChan_self _ _ _
  refine ⟨?_, ?_, ?_⟩
  · rw [h1]; exact h3
  · simp only [h1]; simp [getTokenChan, h3]
  · simp only [h1]; simp [getTokenChan, h3]

/-- Witness for `token_slot_created_at_most_once`: a fresh key on a newly
constructed throttle, first caller at instant 0, second caller at
instant 3. -/
theorem token_slot_created_at_most_once_witness :
    lookupChan (New time.Second).tokenChans ['a'] = none ∧
    (lookupChan (getTokenChan (New time.Second) ['a'] 0).2 ['a'] = some [0] ∧
     (getTokenChan
        { New time.Second with tokenChans := (getTokenChan (New time.Second) ['a'] 0).2 }
        ['a'] 3).1 = [0] ∧
     (getTokenChan
        { New time.Second with tokenChans := (getTokenChan (New time.Second) ['a'] 0).2 }
        ['a'] 3).2 = (getTokenChan (New time.Second) ['a'] 0).2) :=
  ⟨rfl, token_slot_created_at_most_once (New time.Second) ['a'] 0 3 rfl⟩

/-- C8, counterexample: the claim says the losing timeout task never blocks
forever, but on any successful `Wait` — here the first call on a fresh
throttle — the timeout goroutine's send on its unbuffered `timeoutChan` is
never matched by a receive (the select's timeout branch, the only receive,
did not run), so that goroutine blocks forever. -/
theorem timeout_task_blocks_forever_on_success :
    isOk (Wait (New time.Second) ['a'] 0).1 = true ∧
    timeoutSignalConsumed (Wait (New time.Second) ['a'] 0).1 = false ∧
    timeoutTaskBlocksForever (Wait (New time.Second) ['a'] 0).1 = true :=
  ⟨rfl, rfl, rfl⟩

/-- C8, amended: once the race resolves, the timeout signal is consumed
exactly when the timeout branch won (so a losing task's signal is never
awaited again), and the timeout task blocks forever precisely on the calls
where it lost, i.e. the successful ones — one leaked goroutine per
admitted request, harmless to the token state but never terminating. -/
theorem losing_timeout_task_fate (t : Throttle) (client : GoString) (now : Nat) :
    timeoutSignalConsumed (Wait t client now).1 = !(isOk (Wait t client now).1) ∧
    timeoutTaskBlocksForever (Wait t client now).1 = isOk (Wait t client now).1 := by
  cases hres : (Wait t client now).1 <;>
    simp [timeoutSignalConsumed, timeoutTaskBlocksForever, isOk, timeoutChanCap]

/-- C9: `New d` yields a throttle whose request rate is `d` and whose
client map is empty, with no pending background producer at all; the first
background producer appears only once a `Wait` call runs (exactly one
pending send exists after the first call). -/
theorem new_throttle_initial_state (d : Nat) :
    (New d).requestRate = d ∧ (New d).tokenChans = [] ∧ backgroundProducers (New d) = 0 ∧
    ∀ (client : GoString) (now : Nat), backgroundProducers (Wait (New d) client now).2 = 1 := by
  refine ⟨rfl, rfl, rfl, fun client now => ?_⟩
  rw [Wait_fresh (New d) client now rfl]
  simp [backgroundProducers, setChan, New]

/-- C1, evaluated at the failing input: with a configured interval of one
second, three HTTP-variant calls from the same address at instants 0, 100ms
and 200ms end in the third timing out, and the error it returns reports the
package-level `timeout` constant of five seconds — not the configured
interval the claim requires (the string-keyed variant reports
`t.requestRate` here, and the global `timeout` is referenced nowhere else,
so line 72's use of it is a slip). -/
theorem http_wait_error_reports_global_timeout :
    isOk (WaitHTTP (New time.Second) { RemoteAddr := ['a'] } 0).1 = true ∧
    isOk (WaitHTTP (WaitHTTP (New time.Second) { RemoteAddr := ['a'] } 0).2
        { RemoteAddr := ['a'] } (100 * time.Millisecond)).1 = true ∧
    (WaitHTTP (WaitHTTP (WaitHTTP (New time.Second) { RemoteAddr := ['a'] } 0).2
        { RemoteAddr := ['a'] } (100 * time.Millisecond)).2
        { RemoteAddr := ['a'] } (200 * time.Millisecond)).1
      = WaitResult.rateLimited timeout (200 * time.Millisecond + time.Second) ∧
    timeout ≠ (New time.Second).requestRate :=
  ⟨rfl, rfl, rfl, by decide⟩
